import Mathlib

/-!
Verification of the contract-intelligence ingestion / retrieval pipeline.

The definitions below are a shallow embedding of the Python source:

* `chunk_text` embeds `chunk_text` from `src/routers/ingest.py` (text is a
  `List Char`, Python slicing `text[start:end]` is `(t.drop start).take (end - start)`).
  The Python `while` loop is embedded with an explicit iteration bound (`fuel`);
  each loop step increases `start` by at least one when `overlap < chunk_size`,
  so `t.length + 1` iterations are provably sufficient (the claims all assume
  `0 < overlap < chunk_size`; outside that precondition the Python loop does
  not terminate and the embedding is not used).
* `create_embeddings` and `generate_embedding_with_retry` embed the two
  embedding-gateway functions.  The external Gemini call is modelled by an
  oracle `f : Nat -> ApiResult` giving the outcome of the n-th API call;
  exceptions are modelled by their `str(e)` message, and the source's quota
  test (`"429" in s or "quota" in s.lower()`) is embedded as `is_quota_error`.
* `retrieve_relevant_chunks`, `retrieve_relevant_chunks_tfidf` and
  `ask_retrieve_stage` embed the retrieval stage of `src/routers/ask_route.py`.
  The numeric similarity computations (numpy cosine, sklearn TF-IDF) are
  external floating-point collaborators; they are modelled by oracles (`sim`,
  `simsOpt`), and every property proved below holds for every oracle value.
  Python's stable `list.sort(key=score, reverse=True)` is embedded as the
  stable descending insertion sort `sortDesc` (a stable sort by a fixed key is
  unique, so any stable implementation has the same graph).
* `ingest_persist` embeds the persistence part of `ingest_pdfs` over an
  explicit SQLAlchemy-style session (transaction buffer + committed state,
  `commit` applies the buffer atomically, `rollback` discards it).
* `build_citations` embeds the citation construction of `ask_about_contract`;
  Python's `round(x, 4)` (round-half-to-even) is embedded as `pyRound4` on
  rationals.
-/

/-- A chunk record as produced by `chunk_text` in `src/routers/ingest.py`
(the dict with keys `text`, `chunk_index`, `char_start`, `char_end`). -/
structure ChunkSpec where
  text : List Char
  chunk_index : Nat
  char_start : Nat
  char_end : Nat
deriving DecidableEq

/-- One iteration state of the `while start < text_length` loop of
`chunk_text`.  `fuel` bounds the number of remaining iterations; it is
provably sufficient whenever `ov < cs` (see `chunkAux_ne_nil` etc.), so the
embedding agrees with the Python loop on the spec's precondition domain. -/
def chunkAux (t : List Char) (cs ov : Nat) : Nat → Nat → Nat → List ChunkSpec
  | 0, _, _ => []
  | fuel + 1, start, idx =>
    if start < t.length then
      let e := min (start + cs) t.length
      let c : ChunkSpec := ⟨(t.drop start).take (e - start), idx, start, e⟩
      if e < t.length then c :: chunkAux t cs ov fuel (e - ov) (idx + 1) else [c]
    else []

/-- `chunk_text(text, chunk_size, overlap)` from `src/routers/ingest.py`:
split text into overlapping chunks with metadata. -/
def chunk_text (t : List Char) (cs ov : Nat) : List ChunkSpec :=
  chunkAux t cs ov (t.length + 1) 0 0

/-- Outcome of one call to the external embedding service
(`genai.embed_content`): either an embedding vector, or an exception carrying
its `str(e)` message. -/
inductive ApiResult where
  | success (emb : List ℚ)
  | error (msg : String)
deriving DecidableEq

/-- `needle` occurs as a contiguous substring of `hay` (Python's `in` on
strings). -/
def containsSub (needle hay : List Char) : Bool :=
  hay.tails.any (fun s => needle.isPrefixOf s)

/-- The quota test applied to `error_str = str(e)` in both gateway functions:
`"429" in error_str or "quota" in error_str.lower()`. -/
def is_quota_error (msg : String) : Bool :=
  containsSub ("429").toList msg.toList ||
    containsSub ("quota").toList (msg.toList.map Char.toLower)

/-- Whether an API outcome is an exception satisfying the quota test. -/
def ApiResult.isQuotaB : ApiResult → Bool
  | .success _ => false
  | .error m => is_quota_error m

/-- Whether an API outcome is an exception NOT satisfying the quota test
(a generic transient failure). -/
def ApiResult.isGenericB : ApiResult → Bool
  | .success _ => false
  | .error m => !(is_quota_error m)

/-- `create_embeddings(chunks)` from `src/routers/ingest.py`.  `f n` is the
outcome of the (n+1)-th call to `genai.embed_content`.  Returns the chunks
paired with their embedding (`none` = the `embedding` key is absent or
`None`), together with the number of API calls made.  On a quota-signalled
exception the loop `break`s: the failing chunk and all remaining chunks keep
no embedding and no further call is made; on a generic exception the chunk
gets `embedding = None` and the loop continues with the next chunk. -/
def create_embeddings (f : Nat → ApiResult) :
    List ChunkSpec → List (ChunkSpec × Option (List ℚ)) × Nat
  | [] => ([], 0)
  | c :: cstail =>
    match f 0 with
    | .success v =>
      let r := create_embeddings (fun n => f (n + 1)) cstail
      ((c, some v) :: r.1, r.2 + 1)
    | .error msg =>
      if is_quota_error msg then
        ((c :: cstail).map (fun x => (x, none)), 1)
      else
        let r := create_embeddings (fun n => f (n + 1)) cstail
        ((c, none) :: r.1, r.2 + 1)

/-- The `for attempt in range(max_retries)` loop of
`generate_embedding_with_retry` in `src/routers/ask_route.py`.
`remaining` is the number of attempts left, `attempt` the 0-based index of
the current attempt, `f attempt` the outcome of the call made on that
attempt.  Returns (result, number of calls made, list of back-off delays
slept, in order).  A quota-signalled exception returns `None` immediately;
a generic exception sleeps `initial_delay * 2 ** attempt` and retries, except
on the last attempt, which returns `None` without sleeping. -/
def retry_go (f : Nat → ApiResult) (initial_delay : ℚ) :
    Nat → Nat → Option (List ℚ) × Nat × List ℚ
  | 0, _ => (none, 0, [])
  | remaining + 1, attempt =>
    match f attempt with
    | .success v => (some v, 1, [])
    | .error msg =>
      if is_quota_error msg then (none, 1, [])
      else if remaining = 0 then (none, 1, [])
      else
        let r := retry_go f initial_delay remaining (attempt + 1)
        (r.1, r.2.1 + 1, (initial_delay * 2 ^ attempt) :: r.2.2)

/-- `generate_embedding_with_retry(content, max_retries, initial_delay)` from
`src/routers/ask_route.py` (the source defaults are `max_retries = 3`,
`initial_delay = 1.0`). -/
def generate_embedding_with_retry (f : Nat → ApiResult) (max_retries : Nat)
    (initial_delay : ℚ) : Option (List ℚ) × Nat × List ℚ :=
  retry_go f initial_delay max_retries 0

/-- A `DocumentChunk` row (`src/models/documents.py`) as consumed by the
retrieval functions.  Scores/embeddings are rationals (the claims proved
about retrieval are ordering/shape properties that hold for every value, so
no floating-point rounding behaviour is relied upon). -/
structure ChunkRow where
  id : String
  chunk_index : Nat
  page_number : Option Int
  char_start : Option Nat
  char_end : Option Nat
  chunk_text : List Char
  embedding : Option (List ℚ)
deriving DecidableEq

/-- Stable insertion of a scored chunk into a list sorted by descending
score: `x` is placed before the first element whose score is less than or
equal to `x`'s, so earlier-inserted equal-score elements keep their relative
order. -/
def insortDesc (x : ChunkRow × ℚ) : List (ChunkRow × ℚ) → List (ChunkRow × ℚ)
  | [] => [x]
  | y :: ys => if x.2 < y.2 then y :: insortDesc x ys else x :: y :: ys

/-- Stable descending sort by score: the embedding of Python's stable
`scored_chunks.sort(key=lambda x: x[1], reverse=True)`. -/
def sortDesc : List (ChunkRow × ℚ) → List (ChunkRow × ℚ)
  | [] => []
  | x :: xs => insortDesc x (sortDesc xs)

/-- The ordering guaranteed for retrieval output: strictly higher score
first, and ascending chunk index among equal scores. -/
def rankedBefore (a b : ChunkRow × ℚ) : Prop :=
  b.2 < a.2 ∨ (a.2 = b.2 ∧ a.1.chunk_index < b.1.chunk_index)

/-- The loop body of `retrieve_relevant_chunks`: score one chunk, skipping
chunks whose `embedding` is `None` or the empty list (`if chunk.embedding:`
is Python's falsy test).  `sim` is the oracle for
`cosine_similarity(query_embedding, chunk.embedding)` (a numpy float
computation, external to this embedding). -/
def scoreChunk (sim : List ℚ → List ℚ → ℚ) (query_embedding : List ℚ)
    (c : ChunkRow) : Option (ChunkRow × ℚ) :=
  match c.embedding with
  | some e => if e = [] then none else some (c, sim query_embedding e)
  | none => none

/-- `retrieve_relevant_chunks(query_embedding, chunks, top_k)` from
`src/routers/ask_route.py`: score the chunks that have an embedding, return
`[]` when none was scored, else sort by descending score (stably) and take
the first `top_k`. -/
def retrieve_relevant_chunks (sim : List ℚ → List ℚ → ℚ)
    (query_embedding : List ℚ) (chunks : List ChunkRow) (top_k : Nat) :
    List (ChunkRow × ℚ) :=
  let scored := chunks.filterMap (scoreChunk sim query_embedding)
  if scored.isEmpty then [] else (sortDesc scored).take top_k

/-- `retrieve_relevant_chunks_tfidf(query, chunks, top_k)` from
`src/routers/ask_route.py`.  The sklearn TF-IDF vectorization is an external
collaborator: `simsOpt = some sims` models a successful vectorization whose
cosine similarities against the query are `sims` (one per chunk, in chunk
order); `simsOpt = none` models `TfidfVectorizer`/`fit_transform` raising,
in which case the `except` branch returns the first `top_k` chunks with the
constant score `0.5`. -/
def retrieve_relevant_chunks_tfidf (simsOpt : Option (List ℚ))
    (chunks : List ChunkRow) (top_k : Nat) : List (ChunkRow × ℚ) :=
  match simsOpt with
  | some sims =>
    if chunks.isEmpty then []
    else (sortDesc (chunks.zip sims)).take top_k
  | none => (chunks.take top_k).map (fun c => (c, 1 / 2))

/-- The user-facing failures of the retrieval stage of `ask_about_contract`
(HTTP 400 responses). -/
inductive AskFailure where
  | noChunks
  | noRelevantChunks
deriving DecidableEq

/-- The retrieval stage of `ask_about_contract` in `src/routers/ask_route.py`
(lines 267-316), for a document that exists and has extracted text:
error out if the document has no chunks; otherwise retrieve with the
embedding strategy when a query embedding was obtained
(`query_embedding = some qe`), and with the TF-IDF fallback only when the
query embedding is absent (`use_tfidf_fallback` is set exactly when
`generate_embedding_with_retry` returned `None` or no API key is
configured); error out if the retrieval result is empty. -/
def ask_retrieve_stage (query_embedding : Option (List ℚ))
    (sim : List ℚ → List ℚ → ℚ) (simsOpt : Option (List ℚ))
    (chunks : List ChunkRow) (top_k : Nat) :
    Except AskFailure (List (ChunkRow × ℚ)) :=
  if chunks.isEmpty then .error .noChunks
  else
    let relevant :=
      match query_embedding with
      | some qe => retrieve_relevant_chunks sim qe chunks top_k
      | none => retrieve_relevant_chunks_tfidf simsOpt chunks top_k
    if relevant.isEmpty then .error .noRelevantChunks else .ok relevant

/-- A `documents` row as far as the persistence claims are concerned. -/
structure DocRow where
  id : String
  status : String
deriving DecidableEq

/-- A `document_chunks` row as far as the persistence claims are concerned. -/
structure ChunkDBRow where
  document_id : String
  chunk_index : Nat
deriving DecidableEq

/-- The committed database state. -/
structure DBState where
  docs : List DocRow
  chunks : List ChunkDBRow
deriving DecidableEq

/-- A SQLAlchemy session: the committed state plus the uncommitted
transaction buffer.  `flush` sends pending rows to the database inside the
open transaction; until `commit`, nothing is visible in the committed
state. -/
structure DBSession where
  committed : DBState
  txDocs : List DocRow
  txChunks : List ChunkDBRow
deriving DecidableEq

/-- `db.add(doc)`. -/
def DBSession.addDoc (s : DBSession) (d : DocRow) : DBSession :=
  { s with txDocs := s.txDocs ++ [d] }

/-- `db.add(chunk)`. -/
def DBSession.addChunk (s : DBSession) (c : ChunkDBRow) : DBSession :=
  { s with txChunks := s.txChunks ++ [c] }

/-- `doc.status = st` on the pending document object. -/
def DBSession.setDocStatus (s : DBSession) (docId st : String) : DBSession :=
  { s with txDocs := s.txDocs.map (fun d =>
      if d.id = docId then { d with status := st } else d) }

/-- `db.rollback()`: discard the transaction buffer, leaving the committed
state untouched. -/
def DBSession.rollback (s : DBSession) : DBSession :=
  { committed := s.committed, txDocs := [], txChunks := [] }

/-- A successful `db.commit()`: apply the whole transaction buffer to the
committed state atomically. -/
def DBSession.commitOk (s : DBSession) : DBSession :=
  { committed := ⟨s.committed.docs ++ s.txDocs, s.committed.chunks ++ s.txChunks⟩,
    txDocs := [], txChunks := [] }

/-- Which persistence step (if any) raises `SQLAlchemyError` during the
per-file body of `ingest_pdfs`. -/
inductive PersistFailure where
  | flushFails
  | commitFails
  | noFailure
deriving DecidableEq

/-- The persistence part of the per-file body of `ingest_pdfs` in
`src/routers/ingest.py` (lines 195-260): add the document with status
`"processing"`, `flush`, add one row per chunk, set the document status to
`"ingested"`, `commit`; any `SQLAlchemyError` is caught by the handler,
which calls `db.rollback()` (and re-raises an HTTP 500). -/
def ingest_persist (fp : PersistFailure) (s0 : DBSession) (file_id : String)
    (chunkList : List ChunkSpec) : DBSession :=
  let s1 := s0.addDoc ⟨file_id, ("processing")⟩
  match fp with
  | .flushFails => s1.rollback
  | _ =>
    let s2 := chunkList.foldl
      (fun s c => s.addChunk ⟨file_id, c.chunk_index⟩) s1
    let s3 := s2.setDocStatus file_id ("ingested")
    match fp with
    | .commitFails => s3.rollback
    | _ => s3.commitOk

/-- A `Citation` as built by `ask_about_contract` (the pydantic model in
`src/routers/ask_route.py`). -/
structure Citation where
  document_id : String
  chunk_id : String
  chunk_index : Nat
  page : Option Int
  char_range : List Nat
  relevance_score : ℚ
deriving DecidableEq

/-- Python's `round(q, 4)`: scale by 10^4, round half to even, scale back.
(The source applies it to a float score; the representation error of the
binary float is not modelled — the rounding rule itself is.) -/
def pyRound4 (q : ℚ) : ℚ :=
  let s := q * 10000
  let fl : Int := ⌊s⌋
  let n : Int :=
    if s - fl < 1 / 2 then fl
    else if 1 / 2 < s - fl then fl + 1
    else if fl % 2 = 0 then fl else fl + 1
  (n : ℚ) / 10000

/-- The citation-building loop of `ask_about_contract` (lines 360-371):
one `Citation` per retrieval entry, in order; `page=chunk.page_number`
(absent stays absent), `char_range=[chunk.char_start or 0, chunk.char_end
or 0]` (the stored offsets are naturals, so Python's `or 0` coincides with
defaulting `None` to 0), `relevance_score=round(score, 4)`. -/
def build_citations (document_id : String) (relevant : List (ChunkRow × ℚ)) :
    List Citation :=
  relevant.map (fun p =>
    ⟨document_id, p.1.id, p.1.chunk_index, p.1.page_number,
      [p.1.char_start.getD 0, p.1.char_end.getD 0], pyRound4 p.2⟩)

/-! ### Chunker lemmas -/

/-- One unfolding of the loop body of `chunk_text`. -/
theorem chunkAux_succ (t : List Char) (cs ov f start idx : Nat) :
    chunkAux t cs ov (f + 1) start idx =
      if start < t.length then
        (if min (start + cs) t.length < t.length then
          (⟨(t.drop start).take (min (start + cs) t.length - start), idx, start,
            min (start + cs) t.length⟩ : ChunkSpec) ::
            chunkAux t cs ov f (min (start + cs) t.length - ov) (idx + 1)
        else [⟨(t.drop start).take (min (start + cs) t.length - start), idx,
          start, min (start + cs) t.length⟩])
      else [] := rfl

theorem chunkAux_ne_nil (t : List Char) (cs ov fuel start idx : Nat)
    (hs : start < t.length) (hf : 0 < fuel) :
    chunkAux t cs ov fuel start idx ≠ [] := by
  match fuel with
  | f + 1 =>
    rw [chunkAux_succ, if_pos hs]
    split <;> simp

theorem chunkAux_head_start (t : List Char) (cs ov fuel start idx : Nat)
    (hs : start < t.length) (hf : 0 < fuel) :
    (chunkAux t cs ov fuel start idx).head?.map ChunkSpec.char_start =
      some start := by
  match fuel with
  | f + 1 =>
    rw [chunkAux_succ, if_pos hs]
    split <;> rfl

theorem chunkAux_spans (t : List Char) (cs ov : Nat) (hcs : ov < cs) :
    ∀ fuel start idx, t.length - start < fuel →
      ∀ c ∈ chunkAux t cs ov fuel start idx,
        c.char_end = min (c.char_start + cs) t.length ∧
          c.char_start < c.char_end := by
  intro fuel
  induction fuel with
  | zero => intro start idx h; omega
  | succ f ih =>
    intro start idx h c hc
    rw [chunkAux_succ] at hc
    by_cases hs : start < t.length
    · rw [if_pos hs] at hc
      by_cases he : min (start + cs) t.length < t.length
      · rw [if_pos he] at hc
        rcases List.mem_cons.mp hc with rfl | hc'
        · exact ⟨rfl, by simp; omega⟩
        · exact ih _ _ (by omega) c hc'
      · rw [if_neg he] at hc
        rcases List.mem_singleton.mp hc with rfl
        exact ⟨rfl, by simp; omega⟩
    · rw [if_neg hs] at hc
      exact absurd hc (List.not_mem_nil c)

theorem chunkAux_last (t : List Char) (cs ov : Nat) (hcs : ov < cs) :
    ∀ fuel start idx, t.length - start < fuel → start < t.length →
      (chunkAux t cs ov fuel start idx).getLast?.map ChunkSpec.char_end =
        some t.length := by
  intro fuel
  induction fuel with
  | zero => intro start idx h; omega
  | succ f ih =>
    intro start idx h hs
    rw [chunkAux_succ, if_pos hs]
    by_cases he : min (start + cs) t.length < t.length
    · rw [if_pos he]
      have hs' : min (start + cs) t.length - ov < t.length := by omega
      have hf : 0 < f := by omega
      have hrec := ih (min (start + cs) t.length - ov) (idx + 1) (by omega) hs'
      obtain ⟨a, l, hal⟩ :=
        List.exists_cons_of_ne_nil
          (chunkAux_ne_nil t cs ov f (min (start + cs) t.length - ov) (idx + 1)
            hs' hf)
      rw [hal] at hrec ⊢
      rw [List.getLast?_cons_cons]
      exact hrec
    · rw [if_neg he]
      simp
      omega

theorem chunkAux_chain (t : List Char) (cs ov : Nat) (hcs : ov < cs) :
    ∀ fuel start idx, t.length - start < fuel →
      List.Chain' (fun a b => b.char_start + ov = a.char_end)
        (chunkAux t cs ov fuel start idx) := by
  intro fuel
  induction fuel with
  | zero => intro start idx h; omega
  | succ f ih =>
    intro start idx h
    rw [chunkAux_succ]
    by_cases hs : start < t.length
    · rw [if_pos hs]
      by_cases he : min (start + cs) t.length < t.length
      · rw [if_pos he]
        refine List.chain'_cons'.mpr ⟨?_, ih _ _ (by omega)⟩
        intro y hy
        have hs' : min (start + cs) t.length - ov < t.length := by omega
        have hf : 0 < f := by omega
        have hhd := chunkAux_head_start t cs ov f
          (min (start + cs) t.length - ov) (idx + 1) hs' hf
        rw [Option.mem_def] at hy
        rw [hy] at hhd
        have hcsy : y.char_start = min (start + cs) t.length - ov := by
          simpa using hhd
        show y.char_start + ov = min (start + cs) t.length
        omega
      · rw [if_neg he]
        exact List.chain'_singleton _
    · rw [if_neg hs]
      exact List.chain'_nil

theorem chunkAux_cover (t : List Char) (cs ov : Nat) (hcs : ov < cs) :
    ∀ fuel start idx p, t.length - start < fuel → start ≤ p → p < t.length →
      ∃ c ∈ chunkAux t cs ov fuel start idx,
        c.char_start ≤ p ∧ p < c.char_end := by
  intro fuel
  induction fuel with
  | zero => intro start idx p h; omega
  | succ f ih =>
    intro start idx p h hsp hp
    have hs : start < t.length := by omega
    rw [chunkAux_succ, if_pos hs]
    by_cases he : min (start + cs) t.length < t.length
    · rw [if_pos he]
      by_cases hpe : p < min (start + cs) t.length
      · exact ⟨_, List.mem_cons_self _ _, hsp, hpe⟩
      · obtain ⟨c, hc, hc1, hc2⟩ :=
          ih (min (start + cs) t.length - ov) (idx + 1) p (by omega)
            (by omega) hp
        exact ⟨c, List.mem_cons_of_mem _ hc, hc1, hc2⟩
    · rw [if_neg he]
      exact ⟨_, List.mem_singleton_self _, hsp, by simp; omega⟩

theorem chunkAux_count (t : List Char) (cs ov : Nat) (hcs : ov < cs) :
    ∀ fuel start idx, t.length - start < fuel → start + ov < t.length →
      (chunkAux t cs ov fuel start idx).length =
        (t.length - start - ov + (cs - ov) - 1) / (cs - ov) := by
  intro fuel
  induction fuel with
  | zero => intro start idx h; omega
  | succ f ih =>
    intro start idx h hso
    have hs : start < t.length := by omega
    rw [chunkAux_succ, if_pos hs]
    by_cases he : min (start + cs) t.length < t.length
    · rw [if_pos he]
      have hmin : min (start + cs) t.length = start + cs := by omega
      rw [hmin]
      have hrec := ih (start + cs - ov) (idx + 1) (by omega) (by omega)
      rw [hmin] at he
      simp only [List.length_cons]
      rw [hrec]
      have e1 : t.length - (start + cs - ov) - ov + (cs - ov) - 1 =
          t.length - start - ov - 1 := by omega
      have e2 : t.length - start - ov + (cs - ov) - 1 =
          t.length - start - ov - 1 + (cs - ov) := by omega
      rw [e1, e2, Nat.add_div_right _ (by omega : 0 < cs - ov)]
    · rw [if_neg he]
      simp only [List.length_singleton]
      symm
      apply Nat.div_eq_of_lt_le <;> omega

theorem chunkAux_dropLast (t : List Char) (cs ov : Nat) (hcs : ov < cs) :
    ∀ fuel start idx, t.length - start < fuel →
      ∀ c ∈ (chunkAux t cs ov fuel start idx).dropLast,
        c.char_end - c.char_start = cs := by
  intro fuel
  induction fuel with
  | zero => intro start idx h; omega
  | succ f ih =>
    intro start idx h c hc
    rw [chunkAux_succ] at hc
    by_cases hs : start < t.length
    · rw [if_pos hs] at hc
      by_cases he : min (start + cs) t.length < t.length
      · rw [if_pos he] at hc
        have hs' : min (start + cs) t.length - ov < t.length := by omega
        have hf : 0 < f := by omega
        obtain ⟨a, l, hal⟩ :=
          List.exists_cons_of_ne_nil
            (chunkAux_ne_nil t cs ov f (min (start + cs) t.length - ov)
              (idx + 1) hs' hf)
        rw [hal, List.dropLast_cons₂] at hc
        rcases List.mem_cons.mp hc with rfl | hc'
        · simp
          omega
        · rw [← hal] at hc'
          exact ih _ _ (by omega) c hc'
      · rw [if_neg he] at hc
        simp at hc
    · rw [if_neg hs] at hc
      exact absurd hc (List.not_mem_nil c)

theorem chunk_text_nil (cs ov : Nat) : chunk_text [] cs ov = [] := rfl

theorem chunk_text_short (t : List Char) (cs ov : Nat) (h1 : t ≠ [])
    (h2 : t.length ≤ cs) : chunk_text t cs ov = [⟨t, 0, 0, t.length⟩] := by
  have hlen : 0 < t.length := List.length_pos.mpr h1
  show chunkAux t cs ov (t.length + 1) 0 0 = _
  rw [chunkAux_succ, if_pos hlen]
  have hmin : min (0 + cs) t.length = t.length := by omega
  rw [hmin, if_neg (lt_irrefl _)]
  simp

/-! ### Claim theorems for the Chunker (C1, C9, C10) -/

/-- Claim C1, counterexample: the claim quantifies over every text, but for
the empty text the code returns zero chunks while the claimed count formula
("... else exactly one chunk", the branch for `len(text) <= chunk_size`)
demands exactly one. -/
theorem chunk_text_empty_not_single :
    chunk_text [] 1000 200 = [] ∧ (chunk_text [] 1000 200).length ≠ 1 :=
  ⟨rfl, by decide⟩

/-- Claim C1 (amended to non-empty text, which is what the empty-text
counterexample forces; the spec's own testable property is stated for
non-empty text): for `0 < overlap < chunk_size` and non-empty text,
`chunk_text` emits chunks by the stated algorithm — every chunk spans
`[start, min(start + chunk_size, len))` and is non-degenerate, the first
chunk starts at offset 0, the final chunk's `char_end` is `len`, each
consecutive pair satisfies `next.char_start = cur.char_end - overlap` (so
spans overlap by exactly `overlap` characters and leave no gap), the spans
cover `[0, len)`, and the chunk count is
`ceil((len - overlap) / (chunk_size - overlap))` for `len > chunk_size`,
else exactly one. -/
theorem chunk_text_chunking_correct (t : List Char) (cs ov : Nat)
    (h0 : 0 < ov) (hcs : ov < cs) (hne : t ≠ []) :
    (∀ c ∈ chunk_text t cs ov,
        c.char_end = min (c.char_start + cs) t.length ∧
          c.char_start < c.char_end) ∧
    (chunk_text t cs ov).head?.map ChunkSpec.char_start = some 0 ∧
    (chunk_text t cs ov).getLast?.map ChunkSpec.char_end = some t.length ∧
    List.Chain' (fun a b => b.char_start + ov = a.char_end)
      (chunk_text t cs ov) ∧
    (∀ p, p < t.length →
        ∃ c ∈ chunk_text t cs ov, c.char_start ≤ p ∧ p < c.char_end) ∧
    (chunk_text t cs ov).length =
      (if t.length ≤ cs then 1
       else (t.length - ov + (cs - ov) - 1) / (cs - ov)) := by
  have hlen : 0 < t.length := List.length_pos.mpr hne
  have hfuel : t.length - 0 < t.length + 1 := by omega
  refine ⟨chunkAux_spans t cs ov hcs _ 0 0 hfuel,
    chunkAux_head_start t cs ov _ 0 0 hlen (by omega),
    chunkAux_last t cs ov hcs _ 0 0 hfuel hlen,
    chunkAux_chain t cs ov hcs _ 0 0 hfuel,
    fun p hp => chunkAux_cover t cs ov hcs _ 0 0 p hfuel (Nat.zero_le p) hp,
    ?_⟩
  by_cases hshort : t.length ≤ cs
  · rw [if_pos hshort, chunk_text_short t cs ov hne hshort]
    rfl
  · rw [if_neg hshort]
    have := chunkAux_count t cs ov hcs _ 0 0 hfuel (by omega)
    rw [show t.length - 0 - ov = t.length - ov from by omega] at this
    exact this

/-- Witness for `chunk_text_chunking_correct` at text = 10 copies of `'a'`,
`chunk_size = 4`, `overlap = 1` (spans `[0,4) [3,7) [6,10)`). -/
theorem chunk_text_chunking_correct_witness :
    0 < 1 ∧ 1 < 4 ∧ List.replicate 10 'a' ≠ [] ∧
    ((∀ c ∈ chunk_text (List.replicate 10 'a') 4 1,
        c.char_end = min (c.char_start + 4) (List.replicate 10 'a').length ∧
          c.char_start < c.char_end) ∧
    (chunk_text (List.replicate 10 'a') 4 1).head?.map ChunkSpec.char_start =
      some 0 ∧
    (chunk_text (List.replicate 10 'a') 4 1).getLast?.map ChunkSpec.char_end =
      some (List.replicate 10 'a').length ∧
    List.Chain' (fun a b => b.char_start + 1 = a.char_end)
      (chunk_text (List.replicate 10 'a') 4 1) ∧
    (∀ p, p < (List.replicate 10 'a').length →
        ∃ c ∈ chunk_text (List.replicate 10 'a') 4 1,
          c.char_start ≤ p ∧ p < c.char_end) ∧
    (chunk_text (List.replicate 10 'a') 4 1).length =
      (if (List.replicate 10 'a').length ≤ 4 then 1
       else ((List.replicate 10 'a').length - 1 + (4 - 1) - 1) / (4 - 1))) :=
  ⟨by decide, by decide, by decide,
    chunk_text_chunking_correct (List.replicate 10 'a') 4 1 (by decide)
      (by decide) (by decide)⟩

/-- Claim C9: for `0 < overlap < chunk_size`, chunking the empty text
returns the empty sequence (not an error), and chunking any non-empty text
of length at most `chunk_size` returns exactly one chunk spanning
`[0, len(text))` whose text is the whole input. -/
theorem chunk_text_empty_and_short (t : List Char) (cs ov : Nat)
    (h0 : 0 < ov) (hcs : ov < cs) :
    chunk_text [] cs ov = [] ∧
    (t ≠ [] → t.length ≤ cs →
      chunk_text t cs ov = [⟨t, 0, 0, t.length⟩]) :=
  ⟨chunk_text_nil cs ov, fun h1 h2 => chunk_text_short t cs ov h1 h2⟩

/-- Witness for `chunk_text_empty_and_short` at text `['a', 'b']`,
`chunk_size = 3`, `overlap = 1`. -/
theorem chunk_text_empty_and_short_witness :
    0 < 1 ∧ 1 < 3 ∧
    (chunk_text [] 3 1 = [] ∧
      (['a', 'b'] ≠ [] → (['a', 'b'] : List Char).length ≤ 3 →
        chunk_text ['a', 'b'] 3 1 =
          [⟨['a', 'b'], 0, 0, (['a', 'b'] : List Char).length⟩])) :=
  ⟨by decide, by decide,
    chunk_text_empty_and_short ['a', 'b'] 3 1 (by decide) (by decide)⟩

theorem chunkAux_text (t : List Char) (cs ov : Nat) :
    ∀ fuel start idx, ∀ c ∈ chunkAux t cs ov fuel start idx,
      c.text = (t.drop c.char_start).take (c.char_end - c.char_start) := by
  intro fuel
  induction fuel with
  | zero => intro start idx c hc; exact absurd hc (List.not_mem_nil c)
  | succ f ih =>
    intro start idx c hc
    rw [chunkAux_succ] at hc
    by_cases hs : start < t.length
    · rw [if_pos hs] at hc
      by_cases he : min (start + cs) t.length < t.length
      · rw [if_pos he] at hc
        rcases List.mem_cons.mp hc with rfl | hc'
        · rfl
        · exact ih _ _ c hc'
      · rw [if_neg he] at hc
        rcases List.mem_singleton.mp hc with rfl
        rfl
    · rw [if_neg hs] at hc
      exact absurd hc (List.not_mem_nil c)

/-- Claim C10: for `0 < overlap < chunk_size`, every chunk's `text` field is
exactly the slice `text[char_start:char_end]` of the input, and every chunk
except the last spans exactly `chunk_size` characters (only the final chunk
may be shorter). -/
theorem chunk_text_slice_and_size (t : List Char) (cs ov : Nat)
    (h0 : 0 < ov) (hcs : ov < cs) :
    (∀ c ∈ chunk_text t cs ov,
        c.text = (t.drop c.char_start).take (c.char_end - c.char_start)) ∧
    (∀ c ∈ (chunk_text t cs ov).dropLast,
        c.char_end - c.char_start = cs) := by
  have hfuel : t.length - 0 < t.length + 1 := by omega
  exact ⟨fun c hc => chunkAux_text t cs ov _ 0 0 c hc,
    chunkAux_dropLast t cs ov hcs _ 0 0 hfuel⟩

/-- Witness for `chunk_text_slice_and_size` at text `"abcdefgh"` (8 chars),
`chunk_size = 3`, `overlap = 1`. -/
theorem chunk_text_slice_and_size_witness :
    0 < 1 ∧ 1 < 3 ∧
    ((∀ c ∈ chunk_text ("abcdefgh").toList 3 1,
        c.text = ((("abcdefgh").toList.drop c.char_start).take
          (c.char_end - c.char_start))) ∧
    (∀ c ∈ (chunk_text ("abcdefgh").toList 3 1).dropLast,
        c.char_end - c.char_start = 3)) :=
  ⟨by decide, by decide,
    chunk_text_slice_and_size ("abcdefgh").toList 3 1 (by decide) (by decide)⟩

/-! ### Stable descending sort lemmas -/

theorem insortDesc_length (x : ChunkRow × ℚ) (l : List (ChunkRow × ℚ)) :
    (insortDesc x l).length = l.length + 1 := by
  induction l with
  | nil => rfl
  | cons y ys ih =>
    simp only [insortDesc]
    split
    · simp [ih]
    · simp

theorem mem_insortDesc (y x : ChunkRow × ℚ) (l : List (ChunkRow × ℚ)) :
    y ∈ insortDesc x l ↔ y = x ∨ y ∈ l := by
  induction l with
  | nil => simp [insortDesc]
  | cons z zs ih =>
    simp only [insortDesc]
    split
    · simp only [List.mem_cons, ih]
      tauto
    · simp only [List.mem_cons]

theorem sortDesc_length (l : List (ChunkRow × ℚ)) :
    (sortDesc l).length = l.length := by
  induction l with
  | nil => rfl
  | cons x xs ih =>
    rw [sortDesc, insortDesc_length, ih]
    rfl

theorem mem_sortDesc (y : ChunkRow × ℚ) (l : List (ChunkRow × ℚ)) :
    y ∈ sortDesc l → y ∈ l := by
  induction l with
  | nil => simp [sortDesc]
  | cons x xs ih =>
    intro h
    rw [sortDesc, mem_insortDesc] at h
    rcases h with rfl | h
    · exact List.mem_cons_self _ _
    · exact List.mem_cons_of_mem _ (ih h)

theorem insortDesc_pairwise (x : ChunkRow × ℚ) (l : List (ChunkRow × ℚ))
    (hl : l.Pairwise rankedBefore)
    (hx : ∀ y ∈ l, x.1.chunk_index < y.1.chunk_index) :
    (insortDesc x l).Pairwise rankedBefore := by
  induction l with
  | nil => simp [insortDesc]
  | cons y ys ih =>
    rw [List.pairwise_cons] at hl
    obtain ⟨hy, hys⟩ := hl
    simp only [insortDesc]
    split
    · rename_i hlt
      refine List.pairwise_cons.mpr
        ⟨?_, ih hys (fun z hz => hx z (List.mem_cons_of_mem _ hz))⟩
      intro z hz
      rcases (mem_insortDesc z x ys).mp hz with rfl | hz'
      · exact Or.inl hlt
      · exact hy z hz'
    · rename_i hnlt
      push_neg at hnlt
      refine List.pairwise_cons.mpr ⟨?_, List.pairwise_cons.mpr ⟨hy, hys⟩⟩
      intro z hz
      rcases List.mem_cons.mp hz with rfl | hz'
      · rcases lt_or_eq_of_le hnlt with h | h
        · exact Or.inl h
        · exact Or.inr ⟨h.symm, hx z (List.mem_cons_self _ _)⟩
      · rcases hy z hz' with h | h
        · exact Or.inl (lt_of_lt_of_le h hnlt)
        · rcases lt_or_eq_of_le hnlt with h2 | h2
          · exact Or.inl (h.1 ▸ h2)
          · exact Or.inr ⟨h2.symm.trans h.1,
              hx z (List.mem_cons_of_mem _ hz')⟩

theorem sortDesc_pairwise (l : List (ChunkRow × ℚ))
    (h : l.Pairwise (fun a b => a.1.chunk_index < b.1.chunk_index)) :
    (sortDesc l).Pairwise rankedBefore := by
  induction l with
  | nil => exact List.Pairwise.nil
  | cons x xs ih =>
    rw [List.pairwise_cons] at h
    rw [sortDesc]
    exact insortDesc_pairwise x (sortDesc xs) (ih h.2)
      (fun y hy => h.1 y (mem_sortDesc y xs hy))

theorem rankedBefore_imp (a b : ChunkRow × ℚ) (h : rankedBefore a b) :
    b.2 ≤ a.2 ∧ (a.2 = b.2 → a.1.chunk_index < b.1.chunk_index) := by
  rcases h with h | h
  · exact ⟨le_of_lt h, fun heq => absurd (heq ▸ h) (lt_irrefl _)⟩
  · exact ⟨le_of_eq h.1.symm, fun _ => h.2⟩

/-- The sorted-truncated list built from an index-ordered scored list has
length at most `k` and is ordered by descending score with ascending chunk
index among ties. -/
theorem sortTake_good (l : List (ChunkRow × ℚ)) (k : Nat)
    (h : l.Pairwise (fun a b => a.1.chunk_index < b.1.chunk_index)) :
    ((sortDesc l).take k).length ≤ k ∧
      ((sortDesc l).take k).Pairwise (fun a b =>
        b.2 ≤ a.2 ∧ (a.2 = b.2 → a.1.chunk_index < b.1.chunk_index)) :=
  ⟨List.length_take_le k _,
    (((sortDesc_pairwise l h).sublist (List.take_sublist k _)).imp
      (fun hab => rankedBefore_imp _ _ hab))⟩

theorem mem_scoreChunk (sim : List ℚ → List ℚ → ℚ) (qe : List ℚ)
    (a : ChunkRow) (b : ChunkRow × ℚ) (hb : b ∈ scoreChunk sim qe a) :
    b.1 = a := by
  unfold scoreChunk at hb
  cases hae : a.embedding with
  | none => rw [hae] at hb; exact absurd hb (by simp)
  | some e =>
    rw [hae] at hb
    by_cases he : e = []
    · subst he
      exact absurd hb (by simp)
    · rw [show (match some e with
          | some e => if e = [] then none else some (a, sim qe e)
          | none => none) = if e = [] then none
            else some (a, sim qe e) from rfl, if_neg he] at hb
      rw [Option.mem_def, Option.some_inj] at hb
      rw [← hb]

/-! ### Claim theorems for the Retriever (C3, C8, C2) -/

/-- Claim C3: for every similarity oracle, query embedding, TF-IDF oracle,
chunk list (arriving ordered by ascending chunk index, as the ask route's
`ORDER BY chunk_index` query guarantees) and `top_k`, both retrieval
strategies return at most `top_k` entries, sorted by descending relevance
score, with equal-score entries in ascending chunk-index order (Python's
`sort` is stable), so the output ordering is fully determined by the
inputs. -/
theorem retrieval_sorted_deterministic (sim : List ℚ → List ℚ → ℚ)
    (qe : List ℚ) (simsOpt : Option (List ℚ)) (chunks : List ChunkRow)
    (top_k : Nat)
    (hord : chunks.Pairwise (fun a b => a.chunk_index < b.chunk_index))
    (hlen : ∀ sims, simsOpt = some sims → sims.length = chunks.length) :
    ((retrieve_relevant_chunks sim qe chunks top_k).length ≤ top_k ∧
      (retrieve_relevant_chunks sim qe chunks top_k).Pairwise (fun a b =>
        b.2 ≤ a.2 ∧ (a.2 = b.2 → a.1.chunk_index < b.1.chunk_index))) ∧
    ((retrieve_relevant_chunks_tfidf simsOpt chunks top_k).length ≤ top_k ∧
      (retrieve_relevant_chunks_tfidf simsOpt chunks top_k).Pairwise
        (fun a b =>
          b.2 ≤ a.2 ∧ (a.2 = b.2 → a.1.chunk_index < b.1.chunk_index))) := by
  constructor
  · have hscored : (chunks.filterMap (scoreChunk sim qe)).Pairwise
        (fun a b => a.1.chunk_index < b.1.chunk_index) := by
      rw [List.pairwise_filterMap]
      refine hord.imp ?_
      intro a a' hlt b hb b' hb'
      rw [mem_scoreChunk sim qe a b hb, mem_scoreChunk sim qe a' b' hb']
      exact hlt
    rw [retrieve_relevant_chunks]
    split
    · simp
    · exact sortTake_good _ top_k hscored
  · match simsOpt with
    | none =>
      rw [retrieve_relevant_chunks_tfidf]
      constructor
      · rw [List.length_map]
        exact List.length_take_le top_k chunks
      · rw [List.pairwise_map]
        refine ((hord.sublist (List.take_sublist top_k chunks)).imp ?_)
        intro a b hlt
        exact ⟨le_refl _, fun _ => hlt⟩
    | some sims =>
      rw [retrieve_relevant_chunks_tfidf]
      split
      · simp
      · have hzip : (chunks.zip sims).Pairwise
            (fun a b => a.1.chunk_index < b.1.chunk_index) := by
          have hmf : (chunks.zip sims).map Prod.fst = chunks :=
            List.map_fst_zip chunks sims (le_of_eq (hlen sims rfl).symm)
          have := hord
          rw [← hmf, List.pairwise_map] at this
          exact this
        exact sortTake_good _ top_k hzip

/-- Witness for `retrieval_sorted_deterministic` at two index-ordered chunks
with embeddings, a constant similarity oracle, and a two-score TF-IDF
oracle. -/
theorem retrieval_sorted_deterministic_witness :
    ([⟨("c0"), 0, none, some 0, some 4, [], some [1]⟩,
      ⟨("c1"), 1, none, some 3, some 7, [], some [2]⟩] :
        List ChunkRow).Pairwise (fun a b => a.chunk_index < b.chunk_index) ∧
    (∀ sims, (some [(1 : ℚ), 2] : Option (List ℚ)) = some sims →
      sims.length =
        ([⟨("c0"), 0, none, some 0, some 4, [], some [1]⟩,
          ⟨("c1"), 1, none, some 3, some 7, [], some [2]⟩] :
            List ChunkRow).length) ∧
    (((retrieve_relevant_chunks (fun _ _ => 1) [1]
        [⟨("c0"), 0, none, some 0, some 4, [], some [1]⟩,
         ⟨("c1"), 1, none, some 3, some 7, [], some [2]⟩] 5).length ≤ 5 ∧
      (retrieve_relevant_chunks (fun _ _ => 1) [1]
        [⟨("c0"), 0, none, some 0, some 4, [], some [1]⟩,
         ⟨("c1"), 1, none, some 3, some 7, [], some [2]⟩] 5).Pairwise
        (fun a b =>
          b.2 ≤ a.2 ∧ (a.2 = b.2 → a.1.chunk_index < b.1.chunk_index))) ∧
    ((retrieve_relevant_chunks_tfidf (some [(1 : ℚ), 2])
        [⟨("c0"), 0, none, some 0, some 4, [], some [1]⟩,
         ⟨("c1"), 1, none, some 3, some 7, [], some [2]⟩] 5).length ≤ 5 ∧
      (retrieve_relevant_chunks_tfidf (some [(1 : ℚ), 2])
        [⟨("c0"), 0, none, some 0, some 4, [], some [1]⟩,
         ⟨("c1"), 1, none, some 3, some 7, [], some [2]⟩] 5).Pairwise
        (fun a b =>
          b.2 ≤ a.2 ∧ (a.2 = b.2 → a.1.chunk_index < b.1.chunk_index)))) :=
  ⟨by decide, fun sims hs => by cases hs; decide,
    retrieval_sorted_deterministic (fun _ _ => 1) [1] (some [(1 : ℚ), 2])
      [⟨("c0"), 0, none, some 0, some 4, [], some [1]⟩,
       ⟨("c1"), 1, none, some 3, some 7, [], some [2]⟩] 5 (by decide)
      (fun sims hs => by cases hs; decide)⟩

/-- Claim C8: when the TF-IDF vectorization itself fails (oracle `none`),
lexical retrieval returns the first `top_k` chunks in original order, each
with the same constant score `0.5`, and so is non-empty whenever at least
one chunk exists and `top_k ≥ 1` — it never hard-fails. -/
theorem tfidf_degraded_constant_score (chunks : List ChunkRow)
    (top_k : Nat) :
    retrieve_relevant_chunks_tfidf none chunks top_k =
      (chunks.take top_k).map (fun c => (c, 1 / 2)) ∧
    (∀ p ∈ retrieve_relevant_chunks_tfidf none chunks top_k, p.2 = 1 / 2) ∧
    (retrieve_relevant_chunks_tfidf none chunks top_k).map Prod.fst =
      chunks.take top_k ∧
    (chunks ≠ [] → 1 ≤ top_k →
      retrieve_relevant_chunks_tfidf none chunks top_k ≠ []) := by
  refine ⟨rfl, ?_, ?_, ?_⟩
  · intro p hp
    rw [retrieve_relevant_chunks_tfidf] at hp
    obtain ⟨c, _, hc⟩ := List.mem_map.mp hp
    rw [← hc]
  · rw [retrieve_relevant_chunks_tfidf, List.map_map]
    exact List.map_id _
  · intro hne hk h
    rw [retrieve_relevant_chunks_tfidf] at h
    have hl := congrArg List.length h
    rw [List.length_map, List.length_take, List.length_nil] at hl
    have := List.length_pos.mpr hne
    omega

/-- Witness for `tfidf_degraded_constant_score` at a single chunk and
`top_k = 1`. -/
theorem tfidf_degraded_constant_score_witness :
    ([⟨("c0"), 0, none, some 0, some 4, [], none⟩] : List ChunkRow) ≠ [] ∧
    1 ≤ 1 ∧
    retrieve_relevant_chunks_tfidf none
      [⟨("c0"), 0, none, some 0, some 4, [], none⟩] 1 ≠ [] :=
  ⟨by decide, by decide,
    (tfidf_degraded_constant_score
      [⟨("c0"), 0, none, some 0, some 4, [], none⟩] 1).2.2.2 (by decide)
      (by decide)⟩

/-- Claim C2, counterexample: a non-empty chunk set in which no chunk has an
embedding, a query that embedded successfully and whose TF-IDF similarity
against the chunk would be positive (the chunks share vocabulary with the
query) — yet the request fails with the 400 error "No relevant chunks
found" instead of falling back to lexical scoring: the fallback is selected
only on query-embedding absence, never on chunk-embedding absence. -/
theorem ask_no_embeddings_errors :
    (∀ c ∈ ([⟨("c0"), 0, none, some 0, some 4, ("termination terms").toList,
        none⟩] : List ChunkRow), c.embedding = none) ∧
    ([⟨("c0"), 0, none, some 0, some 4, ("termination terms").toList,
        none⟩] : List ChunkRow) ≠ [] ∧
    ask_retrieve_stage (some [1]) (fun _ _ => 0) (some [1])
      [⟨("c0"), 0, none, some 0, some 4, ("termination terms").toList,
        none⟩] 5 = .error AskFailure.noRelevantChunks :=
  ⟨by decide, by decide, rfl⟩

/-- Claim C2 (amended: in the code the TF-IDF fallback is triggered only by
an absent query embedding — missing API key or failed embedding generation —
not by chunk embeddings being absent): whenever the query embedding is
absent, the retrieval stage falls back to lexical scoring and returns a
non-empty `ok` result for every non-empty chunk set and `top_k ≥ 1`,
whatever the TF-IDF oracle does (success with one score per chunk, or
failure) — an absent embedding set is recoverable there, not a fatal
error. -/
theorem ask_fallback_on_absent_query_embedding
    (sim : List ℚ → List ℚ → ℚ) (simsOpt : Option (List ℚ))
    (chunks : List ChunkRow) (top_k : Nat)
    (hne : chunks ≠ []) (hk : 1 ≤ top_k)
    (hlen : ∀ sims, simsOpt = some sims → sims.length = chunks.length) :
    ∃ r, ask_retrieve_stage none sim simsOpt chunks top_k = .ok r ∧
      r ≠ [] := by
  have hlp := List.length_pos.mpr hne
  have hrel : retrieve_relevant_chunks_tfidf simsOpt chunks top_k ≠ [] := by
    match simsOpt with
    | none =>
      rw [retrieve_relevant_chunks_tfidf]
      intro h
      have hl := congrArg List.length h
      rw [List.length_map, List.length_take, List.length_nil] at hl
      omega
    | some sims =>
      rw [retrieve_relevant_chunks_tfidf]
      rw [if_neg (by rw [List.isEmpty_iff]; exact hne)]
      intro h
      have hl := congrArg List.length h
      rw [List.length_take, sortDesc_length, List.length_zip,
        hlen sims rfl, List.length_nil, Nat.min_self] at hl
      omega
  refine ⟨retrieve_relevant_chunks_tfidf simsOpt chunks top_k, ?_, hrel⟩
  show (if chunks.isEmpty then (Except.error AskFailure.noChunks :
      Except AskFailure (List (ChunkRow × ℚ)))
    else if (retrieve_relevant_chunks_tfidf simsOpt chunks top_k).isEmpty
      then Except.error AskFailure.noRelevantChunks
      else Except.ok (retrieve_relevant_chunks_tfidf simsOpt chunks top_k)) =
    Except.ok (retrieve_relevant_chunks_tfidf simsOpt chunks top_k)
  rw [if_neg (by rw [List.isEmpty_iff]; exact hne),
    if_neg (by rw [List.isEmpty_iff]; exact hrel)]

/-- Witness for `ask_fallback_on_absent_query_embedding` at one chunk with
no embedding, a successful TF-IDF oracle, and `top_k = 1`. -/
theorem ask_fallback_on_absent_query_embedding_witness :
    ([⟨("c0"), 0, none, some 0, some 4, [], none⟩] : List ChunkRow) ≠ [] ∧
    1 ≤ 1 ∧
    (∀ sims, (some [(1 : ℚ)] : Option (List ℚ)) = some sims →
      sims.length =
        ([⟨("c0"), 0, none, some 0, some 4, [], none⟩] :
          List ChunkRow).length) ∧
    (∃ r, ask_retrieve_stage none (fun _ _ => 0) (some [(1 : ℚ)])
      [⟨("c0"), 0, none, some 0, some 4, [], none⟩] 1 = .ok r ∧ r ≠ []) :=
  ⟨by decide, by decide, fun sims hs => by cases hs; decide,
    ask_fallback_on_absent_query_embedding (fun _ _ => 0) (some [(1 : ℚ)])
      [⟨("c0"), 0, none, some 0, some 4, [], none⟩] 1 (by decide) (by decide)
      (fun sims hs => by cases hs; decide)⟩

/-! ### Embedding-gateway lemmas and claim theorems (C4, C5) -/

theorem retry_go_succ (f : Nat → ApiResult) (initial_delay : ℚ)
    (remaining attempt : Nat) :
    retry_go f initial_delay (remaining + 1) attempt =
      match f attempt with
      | .success v => (some v, 1, [])
      | .error msg =>
        if is_quota_error msg then (none, 1, [])
        else if remaining = 0 then (none, 1, [])
        else
          let r := retry_go f initial_delay remaining (attempt + 1)
          (r.1, r.2.1 + 1, (initial_delay * 2 ^ attempt) :: r.2.2) := rfl

theorem create_embeddings_quota (cks : List ChunkSpec) :
    ∀ (f : Nat → ApiResult) (i : Nat), i < cks.length →
      (∀ j, j < i → (f j).isQuotaB = false) → (f i).isQuotaB = true →
      (create_embeddings f cks).2 = i + 1 ∧
      (create_embeddings f cks).1.length = cks.length ∧
      (∀ p ∈ (create_embeddings f cks).1.drop i, p.2 = none) := by
  induction cks with
  | nil =>
    intro f i hi
    rw [List.length_nil] at hi
    omega
  | cons c cstail ih =>
    intro f i hi hprev hq
    match i with
    | 0 =>
      cases hf0 : f 0 with
      | success v =>
        rw [hf0] at hq
        exact absurd hq (by simp [ApiResult.isQuotaB])
      | error m =>
        rw [hf0] at hq
        have hqm : is_quota_error m = true := hq
        have heq : create_embeddings f (c :: cstail) =
            ((c :: cstail).map (fun x => (x, none)), 1) := by
          simp only [create_embeddings]
          rw [hf0]
          simp [hqm]
        rw [heq]
        refine ⟨rfl, by rw [List.length_map], ?_⟩
        intro p hp
        rw [List.drop_zero] at hp
        obtain ⟨x, _, hx⟩ := List.mem_map.mp hp
        rw [← hx]
    | i' + 1 =>
      have h0 := hprev 0 (by omega)
      cases hf0 : f 0 with
      | success v =>
        simp only [create_embeddings]
        rw [hf0]
        obtain ⟨ha, hb, hc⟩ := ih (fun n => f (n + 1)) i' (by simpa using hi)
          (fun j hj => hprev (j + 1) (by omega)) hq
        refine ⟨by simp [ha], by simp [hb], ?_⟩
        intro p hp
        rw [List.drop_succ_cons] at hp
        exact hc p hp
      | error m =>
        rw [hf0] at h0
        have hqm : is_quota_error m = false := h0
        simp only [create_embeddings]
        rw [hf0]
        simp only [hqm, Bool.false_eq_true, if_false]
        obtain ⟨ha, hb, hc⟩ := ih (fun n => f (n + 1)) i' (by simpa using hi)
          (fun j hj => hprev (j + 1) (by omega)) hq
        refine ⟨by simp [ha], by simp [hb], ?_⟩
        intro p hp
        rw [List.drop_succ_cons] at hp
        exact hc p hp

/-- Claim C4: in a batch, when the embedding call for chunk `i` fails with a
quota signal (error text containing "429" or "quota") and all earlier calls
did not, the loop stops immediately: exactly `i + 1` calls are made, every
chunk is returned, and chunk `i` and all subsequent chunks are left with an
absent embedding; and for a single embed whose first call fails with a quota
signal, the result is absent after exactly one call (no retry, no
back-off sleep). -/
theorem quota_abandons_batch_and_single (f g : Nat → ApiResult)
    (cks : List ChunkSpec) (i : Nat) (hi : i < cks.length)
    (hprev : ∀ j, j < i → (f j).isQuotaB = false)
    (hq : (f i).isQuotaB = true) (hq0 : (g 0).isQuotaB = true) :
    (create_embeddings f cks).2 = i + 1 ∧
    (create_embeddings f cks).1.length = cks.length ∧
    (∀ p ∈ (create_embeddings f cks).1.drop i, p.2 = none) ∧
    generate_embedding_with_retry g 3 1 = (none, 1, []) := by
  obtain ⟨ha, hb, hc⟩ := create_embeddings_quota cks f i hi hprev hq
  refine ⟨ha, hb, hc, ?_⟩
  cases hg0 : g 0 with
  | success v =>
    rw [hg0] at hq0
    exact absurd hq0 (by simp [ApiResult.isQuotaB])
  | error m =>
    rw [hg0] at hq0
    have hqm : is_quota_error m = true := hq0
    rw [generate_embedding_with_retry]
    simp only [retry_go]
    rw [hg0]
    simp [hqm]

/-- Witness for `quota_abandons_batch_and_single`: a two-chunk batch whose
very first call hits the quota (one call total, both chunks absent). -/
theorem quota_abandons_batch_and_single_witness :
    0 < ([⟨[], 0, 0, 0⟩, ⟨[], 1, 0, 0⟩] : List ChunkSpec).length ∧
    ((fun _ => ApiResult.error ("429 quota exceeded")) 0).isQuotaB = true ∧
    ((create_embeddings (fun _ => ApiResult.error ("429 quota exceeded"))
        [⟨[], 0, 0, 0⟩, ⟨[], 1, 0, 0⟩]).2 = 0 + 1 ∧
      (create_embeddings (fun _ => ApiResult.error ("429 quota exceeded"))
        [⟨[], 0, 0, 0⟩, ⟨[], 1, 0, 0⟩]).1.length =
        ([⟨[], 0, 0, 0⟩, ⟨[], 1, 0, 0⟩] : List ChunkSpec).length ∧
      (∀ p ∈ (create_embeddings
          (fun _ => ApiResult.error ("429 quota exceeded"))
          [⟨[], 0, 0, 0⟩, ⟨[], 1, 0, 0⟩]).1.drop 0, p.2 = none) ∧
      generate_embedding_with_retry
        (fun _ => ApiResult.error ("429 quota exceeded")) 3 1 =
        (none, 1, [])) :=
  ⟨by decide, by decide,
    quota_abandons_batch_and_single
      (fun _ => ApiResult.error ("429 quota exceeded"))
      (fun _ => ApiResult.error ("429 quota exceeded"))
      [⟨[], 0, 0, 0⟩, ⟨[], 1, 0, 0⟩] 0 (by decide)
      (fun j hj => absurd hj (Nat.not_lt_zero j)) (by decide) (by decide)⟩

/-- Claim C5, counterexample: the batch variant does not retry a generic
transient failure.  A one-chunk batch whose call fails generically makes
exactly one API call (the claim's "retried up to 3 attempts ... single and
batch variant alike" demands three), and the chunk is marked absent. -/
theorem batch_generic_failure_single_call :
    (create_embeddings (fun _ => ApiResult.error ("boom"))
      [⟨[], 0, 0, 0⟩]).2 = 1 ∧
    (1 : Nat) ≠ 3 ∧
    (create_embeddings (fun _ => ApiResult.error ("boom"))
      [⟨[], 0, 0, 0⟩]).1.map Prod.snd = [none] :=
  ⟨rfl, by decide, rfl⟩

theorem create_embeddings_all_generic (cks : List ChunkSpec) :
    ∀ g : Nat → ApiResult, (∀ j, (g j).isGenericB = true) →
      create_embeddings g cks =
        (cks.map (fun c => (c, none)), cks.length) := by
  induction cks with
  | nil => intro g hg; rfl
  | cons c cstail ih =>
    intro g hg
    have h0 := hg 0
    cases hg0 : g 0 with
    | success v =>
      rw [hg0] at h0
      exact absurd h0 (by simp [ApiResult.isGenericB])
    | error m =>
      rw [hg0] at h0
      have hqm : is_quota_error m = false := by
        simpa [ApiResult.isGenericB] using h0
      simp only [create_embeddings]
      rw [hg0]
      simp only [hqm, Bool.false_eq_true, if_false]
      rw [ih (fun n => g (n + 1)) (fun j => hg (j + 1))]
      simp

/-- Claim C5 (amended: only the single-embed path retries; the batch variant
makes exactly one call per chunk with no retry and no back-off): a single
embed facing generic transient failures is retried up to the fixed bound of
3 attempts with exponential back-off delays 1 and 2 (doubling from 1 time
unit), and total failure yields an absent embedding; the batch variant
marks each generically-failing chunk absent after its single call (one call
per chunk, never propagating an error). -/
theorem retry_policy_single_vs_batch (f g : Nat → ApiResult)
    (cks : List ChunkSpec)
    (hf : ∀ j, j < 3 → (f j).isGenericB = true)
    (hg : ∀ j, (g j).isGenericB = true) :
    generate_embedding_with_retry f 3 1 = (none, 3, [1, 2]) ∧
    create_embeddings g cks = (cks.map (fun c => (c, none)), cks.length) := by
  refine ⟨?_, create_embeddings_all_generic cks g hg⟩
  have h0 := hf 0 (by omega)
  have h1 := hf 1 (by omega)
  have h2 := hf 2 (by omega)
  cases hf0 : f 0 with
  | success v => rw [hf0] at h0; exact absurd h0 (by simp [ApiResult.isGenericB])
  | error m0 =>
  cases hf1 : f 1 with
  | success v => rw [hf1] at h1; exact absurd h1 (by simp [ApiResult.isGenericB])
  | error m1 =>
  cases hf2 : f 2 with
  | success v => rw [hf2] at h2; exact absurd h2 (by simp [ApiResult.isGenericB])
  | error m2 =>
    rw [hf0] at h0
    rw [hf1] at h1
    rw [hf2] at h2
    have hq0 : is_quota_error m0 = false := by
      simpa [ApiResult.isGenericB] using h0
    have hq1 : is_quota_error m1 = false := by
      simpa [ApiResult.isGenericB] using h1
    have hq2 : is_quota_error m2 = false := by
      simpa [ApiResult.isGenericB] using h2
    have e2 : retry_go f 1 1 2 = (none, 1, []) := by
      show retry_go f 1 (0 + 1) 2 = (none, 1, [])
      rw [retry_go_succ, hf2]
      simp [hq2]
    have e1 : retry_go f 1 2 1 = (none, 2, [2]) := by
      show retry_go f 1 (1 + 1) 1 = (none, 2, [2])
      rw [retry_go_succ, hf1]
      simp [hq1, e2]
    rw [generate_embedding_with_retry]
    show retry_go f 1 (2 + 1) 0 = (none, 3, [1, 2])
    rw [retry_go_succ, hf0]
    simp [hq0, e1]

/-- Witness for `retry_policy_single_vs_batch`: constant generic failures on
a one-chunk batch. -/
theorem retry_policy_single_vs_batch_witness :
    (∀ j : Nat, j < 3 →
      ((fun _ : Nat => ApiResult.error ("boom")) j).isGenericB = true) ∧
    (∀ j : Nat,
      ((fun _ : Nat => ApiResult.error ("boom")) j).isGenericB = true) ∧
    (generate_embedding_with_retry (fun _ => ApiResult.error ("boom")) 3 1 =
        (none, 3, [1, 2]) ∧
      create_embeddings (fun _ => ApiResult.error ("boom")) [⟨[], 0, 0, 0⟩] =
        (([⟨[], 0, 0, 0⟩] : List ChunkSpec).map (fun c => (c, none)),
          ([⟨[], 0, 0, 0⟩] : List ChunkSpec).length)) :=
  ⟨fun j hj =>
      (by decide : (ApiResult.error ("boom")).isGenericB = true),
    fun j => (by decide : (ApiResult.error ("boom")).isGenericB = true),
    retry_policy_single_vs_batch (fun _ => ApiResult.error ("boom"))
      (fun _ => ApiResult.error ("boom")) [⟨[], 0, 0, 0⟩]
      (fun j hj =>
        (by decide : (ApiResult.error ("boom")).isGenericB = true))
      (fun j =>
        (by decide : (ApiResult.error ("boom")).isGenericB = true))⟩

/-! ### Persistence lemmas and claim theorem (C6) -/

theorem foldl_addChunk (fid : String) (cl : List ChunkSpec) :
    ∀ s : DBSession,
      cl.foldl (fun s c => s.addChunk ⟨fid, c.chunk_index⟩) s =
        ⟨s.committed, s.txDocs,
          s.txChunks ++ cl.map (fun c => ⟨fid, c.chunk_index⟩)⟩ := by
  induction cl with
  | nil => intro s; simp
  | cons c cltail ih =>
    intro s
    rw [List.foldl_cons, ih]
    simp [DBSession.addChunk]

/-- Claim C6: one file's persistence is atomic.  Starting from a session
with an empty transaction buffer and a committed state containing no rows
for the new document id, whichever persistence step fails: the committed
state never contains the document marked `"ingested"` with a partial chunk
set (if the document row is committed as `"ingested"`, the full chunk batch
is committed with it), and on any failure the committed state is exactly
the original one (the rollback discards the whole write). -/
theorem ingest_atomic_commit (fp : PersistFailure) (s0 : DBSession)
    (fid : String) (cl : List ChunkSpec)
    (htx1 : s0.txDocs = []) (htx2 : s0.txChunks = [])
    (hdoc : ∀ d ∈ s0.committed.docs, d.id ≠ fid)
    (hchunk : ∀ ch ∈ s0.committed.chunks, ch.document_id ≠ fid) :
    (∀ d ∈ (ingest_persist fp s0 fid cl).committed.docs, d.id = fid →
      d.status = ("ingested") ∧
        ((ingest_persist fp s0 fid cl).committed.chunks.filter
          (fun ch => ch.document_id = fid)).length = cl.length) ∧
    (fp ≠ .noFailure →
      (ingest_persist fp s0 fid cl).committed = s0.committed) := by
  cases fp with
  | flushFails =>
    refine ⟨?_, fun _ => rfl⟩
    intro d hd hdfid
    exact absurd hdfid (hdoc d hd)
  | commitFails =>
    have hcommitted : (ingest_persist .commitFails s0 fid cl).committed =
        s0.committed := by
      show (((cl.foldl (fun s c => s.addChunk ⟨fid, c.chunk_index⟩)
        (s0.addDoc ⟨fid, ("processing")⟩)).setDocStatus fid
          ("ingested")).rollback).committed = s0.committed
      rw [foldl_addChunk]
      rfl
    refine ⟨?_, fun _ => hcommitted⟩
    intro d hd hdfid
    rw [hcommitted] at hd
    exact absurd hdfid (hdoc d hd)
  | noFailure =>
    have hfin : (ingest_persist .noFailure s0 fid cl).committed =
        ⟨s0.committed.docs ++
            ((s0.txDocs ++ [(⟨fid, ("processing")⟩ : DocRow)]).map
              (fun d : DocRow =>
                if d.id = fid then { d with status := ("ingested") }
                else d)),
          s0.committed.chunks ++
            (s0.txChunks ++ cl.map (fun c => ⟨fid, c.chunk_index⟩))⟩ := by
      show (((cl.foldl (fun s c => s.addChunk ⟨fid, c.chunk_index⟩)
        (s0.addDoc ⟨fid, ("processing")⟩)).setDocStatus fid
          ("ingested")).commitOk).committed = _
      rw [foldl_addChunk]
      rfl
    refine ⟨?_, fun h => absurd rfl h⟩
    intro d hd hdfid
    rw [hfin, htx1, htx2] at hd
    simp only [List.nil_append, List.map_cons, List.map_nil] at hd
    constructor
    · rcases List.mem_append.mp hd with hin | hnew
      · exact absurd hdfid (hdoc d hin)
      · rw [List.mem_singleton] at hnew
        rw [hnew]
        simp
    · rw [hfin, htx2]
      simp only [List.nil_append]
      rw [List.filter_append]
      have h1 : s0.committed.chunks.filter
          (fun ch => ch.document_id = fid) = [] := by
        rw [List.filter_eq_nil]
        intro a ha
        simp only [decide_eq_true_eq]
        exact hchunk a ha
      have h2 : (cl.map (fun c => (⟨fid, c.chunk_index⟩ : ChunkDBRow))).filter
          (fun ch => ch.document_id = fid) =
          cl.map (fun c => ⟨fid, c.chunk_index⟩) := by
        rw [List.filter_eq_self]
        intro a ha
        obtain ⟨x, _, hx⟩ := List.mem_map.mp ha
        rw [← hx]
        simp
      rw [h1, h2, List.nil_append, List.length_map]

/-- Witness for `ingest_atomic_commit` at a failing commit over a fresh
empty database. -/
theorem ingest_atomic_commit_witness :
    (⟨⟨[], []⟩, [], []⟩ : DBSession).txDocs = [] ∧
    (⟨⟨[], []⟩, [], []⟩ : DBSession).txChunks = [] ∧
    (∀ d ∈ (⟨⟨[], []⟩, [], []⟩ : DBSession).committed.docs,
      d.id ≠ ("doc1")) ∧
    (∀ ch ∈ (⟨⟨[], []⟩, [], []⟩ : DBSession).committed.chunks,
      ch.document_id ≠ ("doc1")) ∧
    ((∀ d ∈ (ingest_persist .commitFails ⟨⟨[], []⟩, [], []⟩ ("doc1")
        [⟨[], 0, 0, 0⟩]).committed.docs, d.id = ("doc1") →
      d.status = ("ingested") ∧
        ((ingest_persist .commitFails ⟨⟨[], []⟩, [], []⟩ ("doc1")
          [⟨[], 0, 0, 0⟩]).committed.chunks.filter
            (fun ch => ch.document_id = ("doc1"))).length =
          ([⟨[], 0, 0, 0⟩] : List ChunkSpec).length) ∧
    (PersistFailure.commitFails ≠ .noFailure →
      (ingest_persist .commitFails ⟨⟨[], []⟩, [], []⟩ ("doc1")
        [⟨[], 0, 0, 0⟩]).committed =
        (⟨⟨[], []⟩, [], []⟩ : DBSession).committed)) :=
  ⟨rfl, rfl, by decide, by decide,
    ingest_atomic_commit .commitFails ⟨⟨[], []⟩, [], []⟩ ("doc1")
      [⟨[], 0, 0, 0⟩] rfl rfl (by decide) (by decide)⟩

/-! ### Citation lemmas and claim theorem (C7) -/

theorem pyRound4_mul (q : ℚ) : ∃ n : Int, pyRound4 q = (n : ℚ) / 10000 := by
  simp only [pyRound4]
  exact ⟨_, rfl⟩

theorem pyRound4_near (q : ℚ) : |pyRound4 q - q| ≤ 1 / 20000 := by
  have key : ∀ n : Int, |(n : ℚ) - q * 10000| ≤ 1 / 2 →
      |(n : ℚ) / 10000 - q| ≤ 1 / 20000 := by
    intro n hn
    have hq : (n : ℚ) / 10000 - q = ((n : ℚ) - q * 10000) / 10000 := by
      ring
    rw [hq, abs_div, abs_of_pos (by norm_num : (0 : ℚ) < 10000)]
    linarith
  have hfl : ((⌊q * 10000⌋ : Int) : ℚ) ≤ q * 10000 := Int.floor_le _
  have hfl2 : q * 10000 < ⌊q * 10000⌋ + 1 := Int.lt_floor_add_one _
  simp only [pyRound4]
  by_cases h1 : q * 10000 - ⌊q * 10000⌋ < 1 / 2
  · rw [if_pos h1]
    apply key
    rw [abs_sub_comm, abs_of_nonneg (by linarith)]
    linarith
  · rw [if_neg h1]
    by_cases h2 : (1 : ℚ) / 2 < q * 10000 - ⌊q * 10000⌋
    · rw [if_pos h2]
      apply key
      push_cast
      rw [abs_of_nonneg (by linarith)]
      linarith
    · rw [if_neg h2]
      by_cases h3 : ⌊q * 10000⌋ % 2 = 0
      · rw [if_pos h3]
        apply key
        rw [abs_sub_comm, abs_of_nonneg (by linarith)]
        linarith
      · rw [if_neg h3]
        apply key
        push_cast
        rw [abs_of_nonneg (by linarith)]
        linarith

/-- Claim C7: the citations built from a retrieval result preserve its
order one-to-one (same length, chunk ids in the same order, and the i-th
citation is derived from the i-th result entry); a missing page number
stays absent (passed through as the optional value, never coerced to a
sentinel integer); missing `char_start` / `char_end` offsets default to 0;
and each relevance score is `round(score, 4)` — a multiple of 1/10000
within half a unit in the fourth decimal place of the raw score. -/
theorem citations_preserve_result (docId : String)
    (res : List (ChunkRow × ℚ)) :
    (build_citations docId res).length = res.length ∧
    (build_citations docId res).map Citation.chunk_id =
      res.map (fun p => p.1.id) ∧
    ∀ pr ∈ (build_citations docId res).zip res,
      pr.1.document_id = docId ∧
      pr.1.chunk_id = pr.2.1.id ∧
      pr.1.chunk_index = pr.2.1.chunk_index ∧
      pr.1.page = pr.2.1.page_number ∧
      pr.1.char_range =
        [pr.2.1.char_start.getD 0, pr.2.1.char_end.getD 0] ∧
      pr.1.relevance_score = pyRound4 pr.2.2 ∧
      (∃ n : Int, pr.1.relevance_score = (n : ℚ) / 10000) ∧
      |pr.1.relevance_score - pr.2.2| ≤ 1 / 20000 := by
  refine ⟨List.length_map _ _, ?_, ?_⟩
  · rw [build_citations, List.map_map]
    rfl
  · intro pr hpr
    induction res with
    | nil => exact absurd hpr (List.not_mem_nil pr)
    | cons p ptail ih =>
      rcases List.mem_cons.mp hpr with heq | hmem
      · subst heq
        exact ⟨rfl, rfl, rfl, rfl, rfl, rfl, pyRound4_mul p.2,
          pyRound4_near p.2⟩
      · exact ih hmem

/-- Witness for `citations_preserve_result` at a one-entry retrieval result
with no page number and no offsets and score 1. -/
theorem citations_preserve_result_witness :
    ((⟨("d"), ("c1"), 0, none, [0, 0], pyRound4 1⟩ : Citation),
      ((⟨("c1"), 0, none, none, none, [], none⟩ : ChunkRow), (1 : ℚ))) ∈
      (build_citations ("d")
        [(⟨("c1"), 0, none, none, none, [], none⟩, (1 : ℚ))]).zip
        [(⟨("c1"), 0, none, none, none, [], none⟩, (1 : ℚ))] ∧
    ((⟨("d"), ("c1"), 0, none, [0, 0], pyRound4 1⟩ : Citation).page =
      (⟨("c1"), 0, none, none, none, [], none⟩ : ChunkRow).page_number ∧
    (⟨("d"), ("c1"), 0, none, [0, 0],
        pyRound4 1⟩ : Citation).relevance_score = pyRound4 1 ∧
    |(⟨("d"), ("c1"), 0, none, [0, 0],
        pyRound4 1⟩ : Citation).relevance_score -
      (1 : ℚ)| ≤ 1 / 20000) :=
  ⟨List.mem_singleton.mpr rfl,
    ⟨((citations_preserve_result ("d")
        [(⟨("c1"), 0, none, none, none, [], none⟩, (1 : ℚ))]).2.2 _
        (List.mem_singleton.mpr rfl)).2.2.2.1,
      ((citations_preserve_result ("d")
        [(⟨("c1"), 0, none, none, none, [], none⟩, (1 : ℚ))]).2.2 _
        (List.mem_singleton.mpr rfl)).2.2.2.2.2.1,
      ((citations_preserve_result ("d")
        [(⟨("c1"), 0, none, none, none, [], none⟩, (1 : ℚ))]).2.2 _
        (List.mem_singleton.mpr rfl)).2.2.2.2.2.2.2⟩⟩
